import Mathlib

/-!
Shallow embedding of `src/main.rs` of atspi-tree-visualizer.

The program has two cores:

* `dfs_collect_children` (src/main.rs:20-44): an iterative depth-first walk
  over the remote accessibility tree using an explicit `Vec` work stack.
  For each popped node it fetches the children (`get_children`), and for each
  child it resolves a proxy (`into_accessible_proxy`), pushes the child onto
  the stack, queries its state (`get_state`) and appends the child's
  `ObjectRef` to `collected` when the state contains `State::Showing`.
  Every remote call is followed by `?`, so any failure aborts the whole walk.

* `ScreenPainterGUI::update` (src/main.rs:143-192): the per-frame render
  callback.  It first sends the always-on-top viewport command, then does a
  non-blocking `try_recv` on the inbox channel, replacing `self.state` only
  when a non-empty `Vec<ObjectRef>` arrived, and finally paints a fixed
  10x10 red marker anchored at the top-left corner of each element whose
  resolution/geometry chain succeeds, logging and skipping the elements
  whose chain fails.

The remote accessibility tree is modelled as a finite rose tree `ATree`:
each node carries the `ObjectRef` identity (a `Nat`), the answer the
`get_state` query would give for `State::Showing`, and its children (the
answer `get_children` would give).  Remote-call failures are modelled by an
environment of per-node failure flags (`FailEnv`), one flag per remote call
site of the walker; the render loop's per-element query chain is modelled
by `FrameEnv`.  Screen coordinates are `i32` in the source and are modelled
as `Int` (the `as f32` casts in the marker arithmetic are exact for
on-screen coordinate magnitudes, far below 2^24).
-/

namespace AtspiVis

/-- A finite accessibility (sub)tree as seen through the remote queries:
node identity (`ObjectRef`), whether `get_state` reports `State::Showing`,
and the `get_children` list. -/
inductive ATree : Type where
  | node (ref : Nat) (showing : Bool) (children : List ATree)

/-- The `ObjectRef` of a node. -/
def ATree.ref : ATree → Nat
  | .node r _ _ => r

/-- Whether the node's `get_state` answer contains `State::Showing`. -/
def ATree.showing : ATree → Bool
  | .node _ s _ => s

/-- The node's `get_children` answer. -/
def ATree.children : ATree → List ATree
  | .node _ _ cs => cs

mutual

/-- Number of nodes in the subtree (the node itself included). -/
def ATree.size : ATree → Nat
  | .node _ _ cs => 1 + sizeList cs

/-- Total number of nodes in a list of subtrees. -/
def sizeList : List ATree → Nat
  | [] => 0
  | t :: ts => ATree.size t + sizeList ts

end

/-! ## The Tree Walker: `dfs_collect_children` (src/main.rs:20-44)

The walk is a `while let Some(proxy) = stack.pop()` loop over an explicit
work stack.  The Lean stack is a `List ATree` with the head as the top of
the `Vec`.  One pass of the Rust `for child in children` body is
`pushAndCollect` (all calls succeeding) / `processChildrenE` (fallible);
one iteration of the outer `while` loop is `walkStep` / `walkStepE`.  The
walk is the step function iterated, and `size` many iterations are enough
(proved below). -/

/-- State of the walker loop: the explicit work stack (head = top of the
`Vec`) and the `collected` result sequence of `ObjectRef`s. -/
structure WalkState where
  stack : List ATree
  collected : List Nat

/-- The `for child in children` body (src/main.rs:30-39) with all remote
calls succeeding: push each child onto the stack, and append its
`ObjectRef` to `collected` when its state contains `State::Showing`. -/
def pushAndCollect : List ATree → List ATree → List Nat → List ATree × List Nat
  | [], stack, coll => (stack, coll)
  | c :: rest, stack, coll =>
      pushAndCollect rest (c :: stack) (if c.showing then coll ++ [c.ref] else coll)

/-- One iteration of the `while let Some(proxy) = stack.pop()` loop
(src/main.rs:27-41) with all remote calls succeeding: pop one node, fetch
its children and run the `for child in children` body over them.  On an
empty stack the state is returned unchanged (the loop has exited). -/
def walkStep (s : WalkState) : WalkState :=
  match s.stack with
  | [] => s
  | p :: rest =>
      let (stack, coll) := pushAndCollect p.children rest s.collected
      ⟨stack, coll⟩

/-- `dfs_collect_children` with every remote call succeeding: run the loop
from the singleton stack `[root]`; `root.size` iterations empty the stack
(theorem `walkIter_size`). -/
def dfs_collect_children_ok (root : ATree) : List Nat :=
  (walkStep^[root.size] ⟨[root], []⟩).collected

/-- Which remote calls of the walker fail, per `ObjectRef`:
`childrenFails r` is a failing `proxy.get_children()` on the node `r`,
`proxyFails r` a failing `child.into_accessible_proxy(&conn)` for child `r`,
`stateFails r` a failing `child_proxy.get_state()` for child `r`.
The walk's `Box<dyn Error>` is modelled as `Unit`. -/
structure FailEnv where
  childrenFails : Nat → Bool
  proxyFails : Nat → Bool
  stateFails : Nat → Bool

/-- The environment in which every remote call succeeds. -/
def noFail : FailEnv := ⟨fun _ => false, fun _ => false, fun _ => false⟩

/-- The fallible `for child in children` body (src/main.rs:30-39), in
source order: resolve the child's proxy (`?` aborts the walk), push the
child, query its state (`?` aborts the walk), append the child's
`ObjectRef` when `State::Showing` is present. -/
def processChildrenE (env : FailEnv) :
    List ATree → List ATree → List Nat → Except Unit (List ATree × List Nat)
  | [], stack, coll => .ok (stack, coll)
  | c :: rest, stack, coll =>
      if env.proxyFails c.ref then .error () else
      if env.stateFails c.ref then .error () else
      processChildrenE env rest (c :: stack) (if c.showing then coll ++ [c.ref] else coll)

/-- One fallible iteration of the `while` loop (src/main.rs:27-41): a
failing `get_children` (`?` at src/main.rs:28) aborts the walk, otherwise
the `for child in children` body runs; an already-failed walk stays
failed. -/
def walkStepE (env : FailEnv) :
    Except Unit WalkState → Except Unit WalkState
  | .error e => .error e
  | .ok s =>
      match s.stack with
      | [] => .ok s
      | p :: rest =>
          if env.childrenFails p.ref then .error () else
          match processChildrenE env p.children rest s.collected with
          | .error e => .error e
          | .ok (stack, coll) => .ok ⟨stack, coll⟩

/-- `dfs_collect_children` (src/main.rs:20-44): run the fallible loop from
the singleton stack `[root]` until the stack is empty (`root.size`
iterations suffice, theorem `walkIterE_eq`), returning `Ok(collected)` or
the propagated error. -/
def dfs_collect_children (env : FailEnv) (root : ATree) : Except Unit (List Nat) :=
  ((walkStepE env)^[root.size] (.ok ⟨[root], []⟩)).map WalkState.collected

mutual

/-- Every remote call the walk makes inside this subtree succeeds:
`get_children` on the node itself, and for each child its proxy
resolution, its state query, and recursively its subtree.  The popped
node's own proxy and state are never queried by the walk, so its
`proxyFails`/`stateFails` flags are irrelevant here. -/
def cleanSubtree (env : FailEnv) : ATree → Bool
  | .node r _ cs => !env.childrenFails r && cleanChildren env cs

/-- Every remote call the walk makes on this forest of children succeeds. -/
def cleanChildren (env : FailEnv) : List ATree → Bool
  | [] => true
  | c :: rest =>
      !env.proxyFails c.ref && !env.stateFails c.ref &&
        cleanSubtree env c && cleanChildren env rest

end

/-- Every remote call the walk makes from this work stack succeeds. -/
def allClean (env : FailEnv) (stack : List ATree) : Bool :=
  stack.all (cleanSubtree env)

/-! ## Spec-side order definitions

`subtreeVisIds` is the document-order (pre-order) sequence of the visible
nodes of a subtree, the node itself included; `strictVisIds` restricts to
strict descendants — the set the spec says the walk must produce.
`popSeq` is the sequence of nodes in the order the walker's explicit stack
pops them; `popOrderVis` is the result sequence the spec's "stack-pop
order" sentence describes.  These are written from the spec's words, to be
compared with `dfs_collect_children_ok`. -/

mutual

/-- Document-order (pre-order) visible nodes of a subtree, itself included. -/
def subtreeVisIds : ATree → List Nat
  | .node r s cs => (if s then [r] else []) ++ subtreeVisIdsList cs

/-- Document-order visible nodes of a forest. -/
def subtreeVisIdsList : List ATree → List Nat
  | [] => []
  | c :: rest => subtreeVisIds c ++ subtreeVisIdsList rest

end

/-- Document-order visible strict descendants of `t` (root excluded). -/
def strictVisIds (t : ATree) : List Nat := subtreeVisIdsList t.children

mutual

/-- The nodes of a subtree in the order the walker pops them: the node
itself first, then the pop sequences of its children, last pushed child
first (LIFO). -/
def popSeq : ATree → List ATree
  | .node r s cs => .node r s cs :: popSeqRev cs

/-- Pop sequence of a forest of just-pushed children: the last child was
pushed last, so it is popped (and fully explored) first. -/
def popSeqRev : List ATree → List ATree
  | [] => []
  | c :: rest => popSeqRev rest ++ popSeq c

end

/-- Pop sequence of a whole work stack (head = top popped first). -/
def stackPopSeq : List ATree → List ATree
  | [] => []
  | p :: rest => popSeq p ++ stackPopSeq rest

/-- The `ObjectRef`s of the children whose state contains `State::Showing`,
in child order: what one `while`-loop iteration appends to `collected`. -/
def visChildRefs (cs : List ATree) : List Nat :=
  (cs.filter ATree.showing).map ATree.ref

/-- The visible-children contributions of a node sequence, concatenated. -/
def visJoin : List ATree → List Nat
  | [] => []
  | p :: rest => visChildRefs p.children ++ visJoin rest

/-- The result sequence the spec's "stack-pop order (LIFO)" sentence
describes: the visible children appended at each pop, in pop order. -/
def popOrderVis (t : ATree) : List Nat := visJoin (popSeq t)

/-- Per-child contribution to the result (the `if state.contains(Showing)`
append), concatenated over a forest of children. -/
def optJoin : List ATree → List Nat
  | [] => []
  | c :: rest => (if c.showing then [c.ref] else []) ++ optJoin rest

/-- Document-order visible strict descendants, concatenated over a forest. -/
def strictJoin : List ATree → List Nat
  | [] => []
  | c :: rest => strictVisIds c ++ strictJoin rest

/-! ## The Render Loop: `ScreenPainterGUI` (src/main.rs:122-193)

`update` runs once per display frame.  It (1) sends the always-on-top
viewport command, (2) polls the inbox with `try_recv`, replacing
`self.state` only on a non-empty delivery, (3) paints each element of the
current set whose resolve/proxies/component/extents chain succeeds,
logging and skipping the others. -/

/-- The `(x, y, width, height)` answer of
`component.get_extents(CoordType::Screen)` (src/main.rs:168). -/
structure Extents where
  x : Int
  y : Int
  width : Int
  height : Int

/-- An axis-aligned rectangle: `egui::Rect::from_x_y_ranges` of
`Rangef::new(xMin, xMax)` and `Rangef::new(yMin, yMax)`.  The `f32`
coordinates are modelled as `Int`, exact in the on-screen range. -/
structure Rect where
  xMin : Int
  xMax : Int
  yMin : Int
  yMax : Int
deriving DecidableEq

/-- The marker painted for an element whose extents query answered
`(x0, y0, _, _)` (src/main.rs:169-177): anchored at the box's top-left
corner, fixed `10` wide and `10` tall, the reported width and height
discarded (bound to `_` in the source). -/
def markerRect (x0 y0 : Int) : Rect := ⟨x0, x0 + 10, y0, y0 + 10⟩

/-- Per-element outcomes of the remote query chain of one frame
(src/main.rs:165-184): `point.as_accessible_proxy(&conn)`,
`proxy.proxies()`, `proxies.component()` succeed or fail per element, and
`component.get_extents(CoordType::Screen)` answers a box or fails
(`none`). -/
structure FrameEnv where
  resolveOk : Nat → Bool
  proxiesOk : Nat → Bool
  componentOk : Nat → Bool
  getExtents : Nat → Option Extents

/-- The nested match chain of src/main.rs:165-185 for one element: on full
success the marker rectangle is painted, on a failure at any stage the
error is logged (`eprintln!`) and nothing is painted for this element. -/
def paintElement (env : FrameEnv) (p : Nat) : Option Rect :=
  if env.resolveOk p then
    if env.proxiesOk p then
      if env.componentOk p then
        (env.getExtents p).map fun e => markerRect e.x e.y
      else none
    else none
  else none

/-- `ScreenPainterGUI` (src/main.rs:122-126) restricted to its mutable
state: `state: Option<Vec<ObjectRef>>`, the current HighlightSet.  The
`conn` handle and the `points` receiver are the external collaborators
that the `env` and `recv` arguments of `update` stand for. -/
structure ScreenPainterGUI where
  state : Option (List Nat)

/-- `ScreenPainterGUI::new` (src/main.rs:129-135): `state: None`. -/
def ScreenPainterGUI.new : ScreenPainterGUI := ⟨none⟩

/-- Observable output of one `update` call: `viewportCmdSent` is the
`send_viewport_cmd(WindowLevel(AlwaysOnTop))` of src/main.rs:144;
`painted` lists the `(element, rectangle)` pairs whose `rect_filled` ran
this frame; `skipped` lists the elements whose query chain failed and were
only logged. -/
structure FrameOutput where
  viewportCmdSent : Bool
  painted : List (Nat × Rect)
  skipped : List Nat

/-- `ScreenPainterGUI::update` (src/main.rs:143-192).  `recv` is the
answer of the non-blocking `self.points.try_recv()` (src/main.rs:146):
`some points` when a delivery was pending on the inbox channel, `none`
otherwise.  The delivered vector replaces `self.state` only when non-empty
(src/main.rs:146-150); then every element of the (possibly just replaced)
current set is painted through `paintElement` (src/main.rs:155-189).  The
`for_each_concurrent` fan-out has no ordering guarantee between elements;
`painted` lists the successful elements in set order, fixing one
interleaving — the claims below only use membership. -/
def ScreenPainterGUI.update (g : ScreenPainterGUI) (recv : Option (List Nat))
    (env : FrameEnv) : ScreenPainterGUI × FrameOutput :=
  let st : Option (List Nat) :=
    match recv with
    | some points => if points.isEmpty then g.state else some points
    | none => g.state
  let painted :=
    match st with
    | some pts => pts.filterMap fun p => (paintElement env p).map fun r => (p, r)
    | none => []
  let skipped :=
    match st with
    | some pts => pts.filter fun p => (paintElement env p).isNone
    | none => []
  (⟨st⟩, ⟨true, painted, skipped⟩)

/-- Modelled from the spec: the overlay surface's programmatic
"request next frame" trigger (§6) is an external collaborator, reached
here by delivering a viewport command to the host UI runtime — the
delivery requests a repaint of the viewport, so a frame that sent the
always-on-top command has triggered the loop's next invocation. -/
def requestsNextRepaint (o : FrameOutput) : Bool := o.viewportCmdSent

/-- Invariant of the current-HighlightSet state: `None`, or `Some` of a
non-empty delivered vector. -/
def stateInv (g : ScreenPainterGUI) : Prop :=
  g.state = none ∨ ∃ xs, xs ≠ [] ∧ g.state = some xs

/-! ## Concrete instances used by counterexamples and witnesses -/

/-- A tree whose walk order differs from document order: root `0` with
subtrees `1 → 2` and `3 → 4`, all four descendants Showing. -/
def orderTree : ATree :=
  .node 0 false [.node 1 true [.node 2 true []], .node 3 true [.node 4 true []]]

/-- Root `0` with a single Showing child `1`. -/
def chainTree : ATree := .node 0 false [.node 1 true []]

/-- Every remote call succeeds except the `get_state` visibility query on
the node with `ObjectRef` `1` — a transient failure on a non-root node. -/
def failStateAt1 : FailEnv :=
  ⟨fun _ => false, fun _ => false, fun r => r == 1⟩

/-- A frame in which every per-element query succeeds. -/
def frameOkEnv : FrameEnv :=
  ⟨fun _ => true, fun _ => true, fun _ => true, fun _ => some ⟨0, 0, 0, 0⟩⟩

/-- A frame in which element `1` fails to resolve and every other element
succeeds with extents `(3, 4, 5, 6)`. -/
def frameMixedEnv : FrameEnv :=
  ⟨fun p => p != 1, fun _ => true, fun _ => true, fun _ => some ⟨3, 4, 5, 6⟩⟩

/-- A frame in which every element's extents query answers
`(100, 200, 7, 9)`. -/
def frameAt100200 : FrameEnv :=
  ⟨fun _ => true, fun _ => true, fun _ => true, fun _ => some ⟨100, 200, 7, 9⟩⟩

/-! # Theorems -/

theorem sizeList_append (a b : List ATree) :
    sizeList (a ++ b) = sizeList a + sizeList b := by
  induction a with
  | nil => simp [sizeList]
  | cons t ts ih => simp [sizeList, ih, Nat.add_assoc]

theorem sizeList_reverse (a : List ATree) :
    sizeList a.reverse = sizeList a := by
  induction a with
  | nil => rfl
  | cons t ts ih =>
      simp [List.reverse_cons, sizeList_append, sizeList, ih, Nat.add_comm]

theorem size_pos (t : ATree) : 0 < t.size := by
  cases t with
  | node r s cs => simp [ATree.size]

theorem pushAndCollect_eq (cs : List ATree) :
    ∀ stack coll, pushAndCollect cs stack coll =
      (cs.reverse ++ stack, coll ++ visChildRefs cs) := by
  induction cs with
  | nil => intro stack coll; simp [pushAndCollect, visChildRefs]
  | cons c rest ih =>
      intro stack coll
      simp only [pushAndCollect, ih, List.reverse_cons, List.append_assoc,
        List.singleton_append, visChildRefs, List.filter_cons]
      cases h : c.showing <;> simp [visChildRefs]

theorem stackPopSeq_append (a b : List ATree) :
    stackPopSeq (a ++ b) = stackPopSeq a ++ stackPopSeq b := by
  induction a with
  | nil => rfl
  | cons p rest ih => simp [stackPopSeq, ih]

theorem stackPopSeq_reverse (cs : List ATree) :
    stackPopSeq cs.reverse = popSeqRev cs := by
  induction cs with
  | nil => rfl
  | cons c rest ih =>
      simp [List.reverse_cons, stackPopSeq_append, stackPopSeq, ih, popSeqRev]

theorem visJoin_append (a b : List ATree) :
    visJoin (a ++ b) = visJoin a ++ visJoin b := by
  induction a with
  | nil => rfl
  | cons p rest ih => simp [visJoin, ih]

/-- Running the loop for exactly the total stack size empties the stack and
appends the pop-order visible-children sequence to `collected`. -/
theorem walkIter_eq : ∀ n st coll, sizeList st = n →
    walkStep^[n] ⟨st, coll⟩ = ⟨[], coll ++ visJoin (stackPopSeq st)⟩ := by
  intro n
  induction n with
  | zero =>
      intro st coll h
      cases st with
      | nil => simp [stackPopSeq, visJoin]
      | cons p rest =>
          exfalso
          have := size_pos p
          simp [sizeList] at h
          omega
  | succ n ih =>
      intro st coll h
      cases st with
      | nil => exfalso; simp [sizeList] at h
      | cons p rest =>
          rw [Function.iterate_succ_apply]
          have hstep : walkStep ⟨p :: rest, coll⟩ =
              ⟨p.children.reverse ++ rest, coll ++ visChildRefs p.children⟩ := by
            simp [walkStep, pushAndCollect_eq]
          rw [hstep]
          have hsize : sizeList (p.children.reverse ++ rest) = n := by
            cases p with
            | node r s cs =>
                simp [sizeList, ATree.size] at h
                simpa [sizeList_append, sizeList_reverse, ATree.children] using by omega
          rw [ih _ _ hsize]
          cases p with
          | node r s cs =>
              simp [stackPopSeq, ATree.children, stackPopSeq_append,
                stackPopSeq_reverse, popSeq, visJoin, visJoin_append,
                List.append_assoc]

/-- `root.size` iterations of the loop empty the explicit work stack. -/
theorem walkIter_size (t : ATree) :
    walkStep^[t.size] ⟨[t], []⟩ = ⟨[], popOrderVis t⟩ := by
  have h : sizeList [t] = t.size := by simp [sizeList]
  rw [walkIter_eq t.size [t] [] h]
  simp [stackPopSeq, popOrderVis, visJoin_append, visJoin]

theorem walkStep_empty (coll : List Nat) :
    walkStep ⟨[], coll⟩ = ⟨[], coll⟩ := rfl

theorem walkStepE_error (env : FailEnv) (e : Unit) :
    walkStepE env (.error e) = .error e := rfl

theorem walkStepE_iterate_error (env : FailEnv) (n : Nat) (e : Unit) :
    (walkStepE env)^[n] (.error e) = .error e :=
  Function.iterate_fixed (walkStepE_error env e) n

/-- The fallible `for child in children` pass succeeds exactly when every
child's proxy resolution and state query succeed, and then does what the
all-success pass does. -/
theorem processChildrenE_eq (env : FailEnv) : ∀ (cs : List ATree) stack coll,
    processChildrenE env cs stack coll =
      if cs.all (fun c => !env.proxyFails c.ref && !env.stateFails c.ref) then
        .ok (pushAndCollect cs stack coll)
      else .error () := by
  intro cs
  induction cs with
  | nil => intro stack coll; simp [processChildrenE, pushAndCollect]
  | cons c rest ih =>
      intro stack coll
      simp only [processChildrenE, List.all_cons, pushAndCollect]
      cases hp : env.proxyFails c.ref with
      | true => simp
      | false =>
          cases hs : env.stateFails c.ref with
          | true => simp
          | false => simp [ih]

theorem cleanChildren_eq (env : FailEnv) (cs : List ATree) :
    cleanChildren env cs =
      (cs.all (fun c => !env.proxyFails c.ref && !env.stateFails c.ref) &&
        cs.all (cleanSubtree env)) := by
  induction cs with
  | nil => rfl
  | cons c rest ih =>
      simp only [cleanChildren, List.all_cons, ih]
      cases env.proxyFails c.ref <;> cases env.stateFails c.ref <;>
        cases cleanSubtree env c <;> simp

/-- The fallible loop, iterated for the total stack size, returns the pure
loop's final state when every remote call from the stack succeeds, and the
propagated error otherwise. -/
theorem walkIterE_eq (env : FailEnv) : ∀ n st coll, sizeList st = n →
    (walkStepE env)^[n] (.ok ⟨st, coll⟩) =
      if allClean env st then .ok (walkStep^[n] ⟨st, coll⟩) else .error () := by
  intro n
  induction n with
  | zero =>
      intro st coll h
      cases st with
      | nil => simp [allClean]
      | cons p rest =>
          exfalso
          have := size_pos p
          simp [sizeList] at h
          omega
  | succ n ih =>
      intro st coll h
      cases st with
      | nil => exfalso; simp [sizeList] at h
      | cons p rest =>
          rw [Function.iterate_succ_apply, Function.iterate_succ_apply]
          cases p with
          | node r s cs =>
              have hsize : sizeList (cs.reverse ++ rest) = n := by
                simp [sizeList, ATree.size] at h
                simp [sizeList_append, sizeList_reverse]
                omega
              cases hcf : env.childrenFails r with
              | true =>
                  have hstep : walkStepE env (.ok ⟨ATree.node r s cs :: rest, coll⟩) =
                      .error () := by
                    simp [walkStepE, ATree.ref, hcf]
                  rw [hstep, walkStepE_iterate_error]
                  have : allClean env (ATree.node r s cs :: rest) = false := by
                    simp [allClean, cleanSubtree, hcf]
                  rw [this]
                  simp
              | false =>
                  cases himm : cs.all
                      (fun c => !env.proxyFails c.ref && !env.stateFails c.ref) with
                  | false =>
                      have hproc := processChildrenE_eq env cs rest coll
                      rw [himm] at hproc
                      simp only [Bool.false_eq_true, if_false] at hproc
                      have hstep : walkStepE env (.ok ⟨ATree.node r s cs :: rest, coll⟩) =
                          .error () := by
                        simp [walkStepE, ATree.ref, ATree.children, hcf, hproc]
                      rw [hstep, walkStepE_iterate_error]
                      have : allClean env (ATree.node r s cs :: rest) = false := by
                        simp [allClean, cleanSubtree, hcf, cleanChildren_eq, himm]
                      rw [this]
                      simp
                  | true =>
                      have hproc := processChildrenE_eq env cs rest coll
                      rw [himm] at hproc
                      simp only [if_true, pushAndCollect_eq] at hproc
                      have hstep : walkStepE env (.ok ⟨ATree.node r s cs :: rest, coll⟩) =
                          .ok ⟨cs.reverse ++ rest, coll ++ visChildRefs cs⟩ := by
                        simp [walkStepE, ATree.ref, ATree.children, hcf, hproc]
                      rw [hstep, ih _ _ hsize]
                      have hpure : walkStep ⟨ATree.node r s cs :: rest, coll⟩ =
                          ⟨cs.reverse ++ rest, coll ++ visChildRefs cs⟩ := by
                        simp [walkStep, ATree.children, pushAndCollect_eq]
                      have hcond : allClean env (ATree.node r s cs :: rest) =
                          allClean env (cs.reverse ++ rest) := by
                        simp [allClean, cleanSubtree, hcf, cleanChildren_eq, himm,
                          List.all_append, List.all_reverse]
                      rw [hpure, hcond]

/-- `dfs_collect_children` returns `Ok` of the all-success result exactly
when every remote call it makes on the tree succeeds, and the propagated
`TraversalError` otherwise — wherever in the tree the failure sits. -/
theorem dfs_collect_children_eq (env : FailEnv) (t : ATree) :
    dfs_collect_children env t =
      if cleanSubtree env t then .ok (dfs_collect_children_ok t)
      else .error () := by
  have h : sizeList [t] = t.size := by simp [sizeList]
  unfold dfs_collect_children dfs_collect_children_ok
  rw [walkIterE_eq env t.size [t] [] h]
  have : allClean env [t] = cleanSubtree env t := by simp [allClean]
  rw [this]
  cases cleanSubtree env t <;> simp [Except.map]

theorem cleanChildren_noFail_of (cs : List ATree)
    (h : ∀ c ∈ cs, cleanSubtree noFail c = true) :
    cleanChildren noFail cs = true := by
  induction cs with
  | nil => rfl
  | cons c rest ih =>
      simp only [cleanChildren, noFail]
      refine by simpa using And.intro (h c (by simp)) (ih fun c hc => h c (by simp [hc]))

theorem mem_size_le (c : ATree) : ∀ cs : List ATree, c ∈ cs → c.size ≤ sizeList cs := by
  intro cs
  induction cs with
  | nil => intro h; exact absurd h (List.not_mem_nil c)
  | cons d rest ih =>
      intro h
      rcases List.mem_cons.mp h with h | h
      · subst h; simp [sizeList]
      · have := ih h
        simp [sizeList]
        omega

/-- In the all-success environment every subtree is clean. -/
theorem cleanSubtree_noFail (t : ATree) : cleanSubtree noFail t = true := by
  have main : ∀ n (u : ATree), u.size ≤ n → cleanSubtree noFail u = true := by
    intro n
    induction n with
    | zero => intro u h; exact absurd h (by have := size_pos u; omega)
    | succ n ih =>
        intro u h
        cases u with
        | node r s cs =>
            simp only [cleanSubtree, noFail, Bool.not_false, Bool.true_and]
            refine cleanChildren_noFail_of cs fun c hc => ih c ?_
            have h1 := mem_size_le c cs hc
            simp [ATree.size] at h
            omega
  exact main t.size t le_rfl

theorem visChildRefs_eq_optJoin (cs : List ATree) : visChildRefs cs = optJoin cs := by
  induction cs with
  | nil => rfl
  | cons c rest ih =>
      simp only [visChildRefs, optJoin, List.filter_cons]
      cases h : c.showing <;> simp [h] <;> simpa [visChildRefs] using ih

theorem subtreeVisIdsList_perm (cs : List ATree) :
    (subtreeVisIdsList cs).Perm (optJoin cs ++ strictJoin cs) := by
  induction cs with
  | nil => simp [subtreeVisIdsList, optJoin, strictJoin]
  | cons c rest ih =>
      cases c with
      | node r s cs' =>
          simp only [subtreeVisIdsList, subtreeVisIds, optJoin, strictJoin,
            ATree.showing, ATree.ref, strictVisIds, ATree.children]
          rw [← Multiset.coe_eq_coe] at ih ⊢
          simp only [← Multiset.coe_add] at ih ⊢
          rw [ih]
          abel

theorem visJoin_popSeqRev_perm (cs : List ATree)
    (h : ∀ c ∈ cs, (visJoin (popSeq c)).Perm (strictVisIds c)) :
    (visJoin (popSeqRev cs)).Perm (strictJoin cs) := by
  induction cs with
  | nil => simp [popSeqRev, visJoin, strictJoin]
  | cons c rest ih =>
      simp only [popSeqRev, visJoin_append, strictJoin]
      have h1 := h c (by simp)
      have h2 := ih fun d hd => h d (by simp [hd])
      rw [← Multiset.coe_eq_coe] at h1 h2 ⊢
      simp only [← Multiset.coe_add]
      rw [h1, h2]
      abel

/-- The walker's stack-pop-order result is a permutation of the
document-order visible strict descendants. -/
theorem popOrderVis_perm (t : ATree) : (popOrderVis t).Perm (strictVisIds t) := by
  have main : ∀ n (u : ATree), u.size ≤ n → (popOrderVis u).Perm (strictVisIds u) := by
    intro n
    induction n with
    | zero => intro u h; exact absurd h (by have := size_pos u; omega)
    | succ n ih =>
        intro u h
        cases u with
        | node r s cs =>
            have hrec : ∀ c ∈ cs, (visJoin (popSeq c)).Perm (strictVisIds c) := by
              intro c hc
              have h1 := mem_size_le c cs hc
              have h2 : c.size ≤ n := by simp [ATree.size] at h; omega
              exact ih c h2
            have h2 := visJoin_popSeqRev_perm cs hrec
            have h3 := subtreeVisIdsList_perm cs
            simp only [popOrderVis, popSeq, visJoin, ATree.children,
              visChildRefs_eq_optJoin, strictVisIds]
            exact ((h2.append_left (optJoin cs)).trans h3.symm)
  exact main t.size t le_rfl

/-- The all-success walk result in one equation: pop-order visible
children. -/
theorem dfs_collect_children_ok_eq (t : ATree) :
    dfs_collect_children_ok t = popOrderVis t := by
  unfold dfs_collect_children_ok
  rw [walkIter_size]

/-! # Claims -/

/-- C1: For every finite tree, with every remote call succeeding the
Tree Walker's walk returns `Ok`, and its result sequence is — up to order
(set/multiset equality) — exactly the strict descendants of the root whose
visibility query reported `Showing`.  The root itself is never part of the
result (`strictVisIds` ranges over the root's children's subtrees only),
and `cleanSubtree` never inspects the root's own proxy or state flags: the
walk never queries the root's visibility. -/
theorem walker_collects_exactly_visible_strict_descendants (t : ATree) :
    dfs_collect_children noFail t = Except.ok (dfs_collect_children_ok t) ∧
      (dfs_collect_children_ok t).Perm (strictVisIds t) := by
  constructor
  · rw [dfs_collect_children_eq, cleanSubtree_noFail]
    simp
  · rw [dfs_collect_children_ok_eq]
    exact popOrderVis_perm t

/-- C2: For every finite tree the walker terminates: `t.size` iterations
of the loop step empty the explicit work stack, the stack stays empty
under any further iterations, and the walk result is the `collected`
field at that point.  The loop is the iteration of the non-recursive step
function `walkStep` over the explicit stack — native call depth does not
grow with the tree depth. -/
theorem walker_terminates_with_empty_stack (t : ATree) (m : Nat) :
    (walkStep^[t.size] ⟨[t], []⟩).stack = [] ∧
    (walkStep^[m] (walkStep^[t.size] ⟨[t], []⟩)).stack = [] ∧
    dfs_collect_children_ok t = (walkStep^[t.size] ⟨[t], []⟩).collected := by
  refine ⟨?_, ?_, rfl⟩
  · rw [walkIter_size]
  · rw [walkIter_size, Function.iterate_fixed (walkStep_empty _) m]

/-- C3: Delivering an empty HighlightSet through the inbox leaves the
currently displayed set unchanged, for every Render Loop state and frame
environment: the `!points.is_empty()` guard ignores the delivery. -/
theorem empty_delivery_leaves_state_unchanged (g : ScreenPainterGUI) (env : FrameEnv) :
    ((g.update (some []) env).1).state = g.state := rfl

/-- C4 counterexample: deliver `[5]` then the empty set; after both
deliveries are processed the current HighlightSet is still `[5]`, not the
second-delivered set's elements — last-write-wins fails when the second
delivery is empty. -/
theorem second_empty_delivery_not_last_write :
    ((((ScreenPainterGUI.new.update (some [5]) frameOkEnv).1).update
        (some []) frameOkEnv).1).state = some [5] ∧ ([5] : List Nat) ≠ [] :=
  ⟨rfl, by decide⟩

/-- C4 amended: for any two HighlightSets delivered in sequence with the
second one non-empty, once both deliveries are processed the current set
equals exactly the second-delivered set's elements (last-write-wins by
delivery order); an empty second delivery is ignored instead. -/
theorem last_write_wins_nonempty (g : ScreenPainterGUI) (d1 d2 : List Nat)
    (env1 env2 : FrameEnv) (h : d2 ≠ []) :
    ((((g.update (some d1) env1).1).update (some d2) env2).1).state = some d2 := by
  cases d2 with
  | nil => exact absurd rfl h
  | cons a as => rfl

theorem last_write_wins_nonempty_witness :
    (([6] : List Nat) ≠ []) ∧
    ((((ScreenPainterGUI.new.update (some [5]) frameOkEnv).1).update
        (some [6]) frameOkEnv).1).state = some [6] :=
  ⟨by decide,
    last_write_wins_nonempty ScreenPainterGUI.new [5] [6] frameOkEnv frameOkEnv
      (by decide)⟩

/-- C5: Within one frame, an element whose resolution/geometry chain fails
is only skipped (and logged into `skipped`), and every other element of
the same HighlightSet whose chain succeeds is still painted that frame. -/
theorem one_bad_element_skipped_others_painted (pts : List Nat) (env : FrameEnv)
    (p q : Nat) (r : Rect) (hp : p ∈ pts) (hpf : paintElement env p = none)
    (hq : q ∈ pts) (hqs : paintElement env q = some r) :
    (q, r) ∈ ((ScreenPainterGUI.mk (some pts)).update none env).2.painted ∧
    p ∉ (((ScreenPainterGUI.mk (some pts)).update none env).2.painted).map Prod.fst ∧
    p ∈ ((ScreenPainterGUI.mk (some pts)).update none env).2.skipped := by
  refine ⟨?_, ?_, ?_⟩
  · simp only [ScreenPainterGUI.update]
    exact List.mem_filterMap.mpr ⟨q, hq, by rw [hqs]; rfl⟩
  · simp only [ScreenPainterGUI.update]
    intro hmem
    rcases List.mem_map.mp hmem with ⟨⟨a, r2⟩, ha, hfst⟩
    rcases List.mem_filterMap.mp ha with ⟨b, _, hb⟩
    rcases Option.map_eq_some'.mp hb with ⟨x, hx, hbx⟩
    have hbp : b = p := by
      have := congrArg Prod.fst hbx
      simp at this hfst
      omega
    rw [hbp] at hx
    exact absurd hx (by simp [hpf])
  · simp only [ScreenPainterGUI.update]
    exact List.mem_filter.mpr ⟨hp, by simp [hpf]⟩

theorem one_bad_element_witness :
    ((1 : Nat) ∈ [1, 2]) ∧ paintElement frameMixedEnv 1 = none ∧
    ((2 : Nat) ∈ [1, 2]) ∧ paintElement frameMixedEnv 2 = some (markerRect 3 4) ∧
    ((2, markerRect 3 4) ∈
        ((ScreenPainterGUI.mk (some [1, 2])).update none frameMixedEnv).2.painted ∧
      (1 : Nat) ∉
        (((ScreenPainterGUI.mk (some [1, 2])).update none
            frameMixedEnv).2.painted).map Prod.fst ∧
      (1 : Nat) ∈
        ((ScreenPainterGUI.mk (some [1, 2])).update none frameMixedEnv).2.skipped) :=
  ⟨by decide, rfl, by decide, rfl,
    one_bad_element_skipped_others_painted [1, 2] frameMixedEnv 1 2 (markerRect 3 4)
      (by decide) rfl (by decide) rfl⟩

/-- C6 counterexample: in `chainTree` the root step succeeds (the root's
`get_children` does not fail) and only the visibility query of the
non-root node `1` fails, yet the whole walk returns the error — a
transient per-node failure on a non-root node IS fatal to the run. -/
theorem nonroot_failure_fatal :
    dfs_collect_children failStateAt1 chainTree = Except.error () ∧
    failStateAt1.childrenFails chainTree.ref = false ∧
    failStateAt1.proxyFails 1 = false ∧
    failStateAt1.stateFails 1 = true :=
  ⟨rfl, rfl, rfl, rfl⟩

/-- C6 amended: every remote-call failure the walk encounters — a failing
child enumeration, proxy resolution or visibility query on the root step
or on any non-root node — aborts the whole run and propagates as the
walk's `TraversalError`; the walk returns `Ok` exactly when every remote
call it makes on the tree succeeds. -/
theorem any_remote_failure_aborts_walk (env : FailEnv) (t : ATree) :
    dfs_collect_children env t =
      if cleanSubtree env t then Except.ok (dfs_collect_children_ok t)
      else Except.error () :=
  dfs_collect_children_eq env t

/-- C7: Every invocation of the per-frame `update` sends the viewport
command (src/main.rs:144) unconditionally — before and independently of
the inbox poll — and delivering that command to the host UI runtime is the
external request-next-frame trigger, so every frame triggers the next
repaint request. -/
theorem update_requests_next_repaint (g : ScreenPainterGUI)
    (recv : Option (List Nat)) (env : FrameEnv) :
    requestsNextRepaint (g.update recv env).2 = true := rfl

/-- C8: For every input tree the walker's result sequence is exactly the
stack-pop-order sequence (at each pop, the popped node's Showing children
in child order; nodes popped LIFO), and on `orderTree` this order differs
from document order — pop order is not guaranteed to equal document
order. -/
theorem walker_result_stack_pop_order :
    (∀ t : ATree, dfs_collect_children_ok t = popOrderVis t) ∧
      dfs_collect_children_ok orderTree ≠ strictVisIds orderTree := by
  refine ⟨dfs_collect_children_ok_eq, ?_⟩
  decide

/-- C9: an element whose geometry query reports position `(100, 200)` is
painted as the filled axis-aligned rectangle from `(100, 200)` to
`(110, 210)`: a fixed 10×10 marker anchored at the box's top-left corner,
for every reported width `w` and height `h`. -/
theorem marker_fixed_10x10_at_top_left (w h : Int) (pts : List Nat)
    (env : FrameEnv) (p : Nat) (hp : p ∈ pts) (h1 : env.resolveOk p = true)
    (h2 : env.proxiesOk p = true) (h3 : env.componentOk p = true)
    (h4 : env.getExtents p = some ⟨100, 200, w, h⟩) :
    markerRect 100 200 = ⟨100, 110, 200, 210⟩ ∧
    (p, Rect.mk 100 110 200 210) ∈
      ((ScreenPainterGUI.mk (some pts)).update none env).2.painted := by
  have hm : markerRect 100 200 = ⟨100, 110, 200, 210⟩ := by decide
  refine ⟨hm, ?_⟩
  simp only [ScreenPainterGUI.update]
  refine List.mem_filterMap.mpr ⟨p, hp, ?_⟩
  rw [show paintElement env p = some (markerRect 100 200) by
    simp [paintElement, h1, h2, h3, h4]]
  rw [hm]
  rfl

theorem marker_fixed_10x10_witness :
    ((3 : Nat) ∈ [3]) ∧ frameAt100200.resolveOk 3 = true ∧
    frameAt100200.proxiesOk 3 = true ∧ frameAt100200.componentOk 3 = true ∧
    frameAt100200.getExtents 3 = some ⟨100, 200, 7, 9⟩ ∧
    (markerRect 100 200 = ⟨100, 110, 200, 210⟩ ∧
      (3, Rect.mk 100 110 200 210) ∈
        ((ScreenPainterGUI.mk (some [3])).update none frameAt100200).2.painted) :=
  ⟨by decide, rfl, rfl, rfl, rfl,
    marker_fixed_10x10_at_top_left 7 9 [3] frameAt100200 3 (by decide) rfl rfl rfl rfl⟩

/-- C10: The current-HighlightSet state starts as `None`
(`ScreenPainterGUI::new`), every `update` preserves the invariant that it
is `None` or a non-empty vector, and once it is `Some` it never
transitions back to `None`: no operation of the loop clears an
established highlight set. -/
theorem highlight_state_never_cleared :
    ScreenPainterGUI.new.state = none ∧
    (∀ (g : ScreenPainterGUI) (recv : Option (List Nat)) (env : FrameEnv),
      stateInv g → stateInv (g.update recv env).1) ∧
    (∀ (g : ScreenPainterGUI) (recv : Option (List Nat)) (env : FrameEnv)
      (xs : List Nat), g.state = some xs →
        ∃ ys, ((g.update recv env).1).state = some ys) := by
  refine ⟨rfl, ?_, ?_⟩
  · intro g recv env hg
    cases recv with
    | none => exact hg
    | some points =>
        cases points with
        | nil => exact hg
        | cons a as => exact Or.inr ⟨a :: as, by simp, rfl⟩
  · intro g recv env xs hxs
    cases recv with
    | none => exact ⟨xs, by rw [show ((g.update none env).1).state = g.state from rfl, hxs]⟩
    | some points =>
        cases points with
        | nil =>
            exact ⟨xs, by
              rw [show ((g.update (some []) env).1).state = g.state from rfl, hxs]⟩
        | cons a as => exact ⟨a :: as, rfl⟩

theorem highlight_state_never_cleared_witness :
    stateInv ((ScreenPainterGUI.mk (some [1])).update (some []) frameOkEnv).1 ∧
    (∃ ys, (((ScreenPainterGUI.mk (some [1])).update none frameOkEnv).1).state = some ys) :=
  ⟨highlight_state_never_cleared.2.1 ⟨some [1]⟩ (some []) frameOkEnv
      (Or.inr ⟨[1], by decide, rfl⟩),
    highlight_state_never_cleared.2.2 ⟨some [1]⟩ none frameOkEnv [1] rfl⟩

end AtspiVis
